import Mathlib

/-!
Verification of the incremental SSE (Server-Sent-Events) stream decoder of
the fetch-based event-source client, and of the surrounding transport glue
in packages/fetch-event-source/src/fetch.ts.

Bytes are modelled as natural numbers (the relevant code points are ASCII:
10 = LF, 13 = CR, 32 = space, 58 = colon, 0 = NUL).  The decoder is a pure
state machine: a line splitter folding byte chunks into complete lines, and
a message assembler folding lines into SSE messages and side-channel
callbacks.  Callback invocations are reified as an ordered event list.
-/

/-- Converts an ASCII string into the byte sequence it denotes. -/
def strBytes (s : String) : List Nat := s.data.map Char.toNat

/-- Modelled from the spec: state of the line splitter (spec 4.1, the
`getLines` stage of parse.ts, absent from the sources).  `buf` is the
growable buffer holding the unterminated remainder of the current line;
`discardNL` is the one-byte carry-over flag recording that the previous
byte was a CR, so that a following LF is swallowed as part of the same
CRLF terminator. -/
structure LineState where
  buf : List Nat
  discardNL : Bool
  deriving DecidableEq

/-- Initial line-splitter state: empty buffer, no pending CR. -/
def initLineState : LineState := ⟨[], false⟩

/-- Prepends a completed line onto the line list of a scan result. -/
def consLine (x : List Nat) (r : List (List Nat) × List Nat × Bool) :
    List (List Nat) × List Nat × Bool :=
  (x :: r.1, r.2)

/-- Modelled from the spec: the byte-scanning loop of the line splitter
(spec 4.1).  `scanBytes cur input d` scans `input` with `cur` the bytes
accumulated for the current line and `d` the pending-CR flag; it returns
the complete lines found (terminators removed), the remaining partial
line, and the final pending-CR flag.  A LF while `d` is set is swallowed;
a bare LF or a CR terminates the current line, CR additionally setting
the flag. -/
def scanBytes : List Nat → List Nat → Bool → List (List Nat) × List Nat × Bool
  | cur, [], d => ([], cur, d)
  | cur, b :: rest, d =>
    if d = true ∧ b = 10 then scanBytes cur rest false
    else if b = 10 then consLine cur (scanBytes [] rest false)
    else if b = 13 then consLine cur (scanBytes [] rest true)
    else scanBytes (cur ++ [b]) rest false

/-- Modelled from the spec: processing of one byte chunk by the line
splitter: scan the chunk starting from the carried-over state, emit the
complete lines, keep the trailing partial line and the CR flag. -/
def processChunk (s : LineState) (c : List Nat) : List (List Nat) × LineState :=
  ((scanBytes s.buf c s.discardNL).1,
   ⟨(scanBytes s.buf c s.discardNL).2.1, (scanBytes s.buf c s.discardNL).2.2⟩)

/-- Modelled from the spec: feeding a sequence of chunks, one at a time,
through the line splitter, concatenating the lines each chunk produces. -/
def processChunks : LineState → List (List Nat) → List (List Nat) × LineState
  | s, [] => ([], s)
  | s, c :: cs =>
    ((processChunk s c).1 ++ (processChunks (processChunk s c).2 cs).1,
     (processChunks (processChunk s c).2 cs).2)

/-- Modelled from the spec: the reconstructed SSE message record
(spec 3): optional id and event type, newline-joined data accumulator,
optional retry value. -/
structure SSEMessage where
  id : Option (List Nat)
  event : Option (List Nat)
  data : List Nat
  retry : Option Nat
  deriving DecidableEq

/-- A fresh, empty message record. -/
def newMessage : SSEMessage := ⟨none, none, [], none⟩

/-- A callback invocation made by the message assembler, in order:
`onId` for a parsed id field, `onRetry` for a well-formed retry field
(the retry-interval side channel), `onMessage` for a completed message. -/
inductive SSEEvent where
  | onId (v : List Nat)
  | onRetry (n : Nat)
  | onMessage (m : SSEMessage)
  deriving DecidableEq

/-- Modelled from the spec: state of the message assembler (spec 4.2):
the message in progress, plus whether a message-content field line
(data, event or id) has been seen since the last flush — the
AwaitingField/MessageOpen state of the spec's state machine. -/
structure MsgState where
  msg : SSEMessage
  hasFields : Bool
  deriving DecidableEq

/-- Initial assembler state: empty record, awaiting fields. -/
def initMsgState : MsgState := ⟨newMessage, false⟩

/-- Splits a line at its first colon (byte 58): `none` when the line has
no colon, otherwise the field name before the colon and the raw value
after it. -/
def splitColon : List Nat → Option (List Nat × List Nat)
  | [] => none
  | b :: rest =>
    if b = 58 then some ([], rest)
    else
      match splitColon rest with
      | none => none
      | some (f, v) => some (b :: f, v)

/-- Strips at most one leading space (byte 32) from a field value. -/
def stripOneSpace : List Nat → List Nat
  | 32 :: rest => rest
  | v => v

/-- Modelled from the spec: field-line parsing (spec 4.2): name before the
first colon, value after it with at most one leading space stripped; a
line with no colon is a name with an empty value. -/
def fieldOf (line : List Nat) : List Nat × List Nat :=
  match splitColon line with
  | none => (line, [])
  | some (f, v) => (f, stripOneSpace v)

/-- Tests whether a byte is an ASCII decimal digit. -/
def isDigitByte (b : Nat) : Bool := 48 ≤ b && b ≤ 57

/-- Reads a run of ASCII digit bytes as a base-10 natural number. -/
def digitsToNat (v : List Nat) : Nat := v.foldl (fun acc b => acc * 10 + (b - 48)) 0

/-- Modelled from the spec: one step of the message assembler on a single
line (spec 4.2 and the expectations of spec 8).  A blank line flushes the
message exactly when a data, event or id field line has been seen since
the last flush (a retry-only run flushes nothing, spec 8).  A line whose
first byte is a colon is a comment and is ignored entirely.  A data field
appends its value to the accumulated data, preceded by a newline
separator only when the accumulated data is nonempty.  An event field
overwrites the event type.  An id field whose value contains NUL is
skipped (no assignment, no `onId`), but still counts as a seen field
line, since spec 8 requires the NUL-id message to be emitted (with no
id).  A retry field fires `onRetry` exactly when its value is a nonempty
all-digit run, updating the record and the side channel immediately. -/
def stepLine (st : MsgState) : List Nat → MsgState × List SSEEvent
  | [] => (initMsgState, if st.hasFields then [SSEEvent.onMessage st.msg] else [])
  | b :: rest =>
    if b = 58 then (st, [])
    else
      let f := (fieldOf (b :: rest)).1
      let v := (fieldOf (b :: rest)).2
      if f = strBytes "data" then
        ({ st with
            msg := { st.msg with
              data := if st.msg.data = [] then v else st.msg.data ++ 10 :: v },
            hasFields := true }, [])
      else if f = strBytes "event" then
        ({ st with msg := { st.msg with event := some v }, hasFields := true }, [])
      else if f = strBytes "id" then
        if v.contains 0 then ({ st with hasFields := true }, [])
        else ({ st with msg := { st.msg with id := some v }, hasFields := true },
              [SSEEvent.onId v])
      else if f = strBytes "retry" then
        if v.isEmpty then (st, [])
        else if v.all isDigitByte then
          ({ st with msg := { st.msg with retry := some (digitsToNat v) } },
           [SSEEvent.onRetry (digitsToNat v)])
        else (st, [])
      else (st, [])

/-- Prepends already-emitted events onto a run result. -/
def withEvents {α : Type} (evs : List SSEEvent) (r : α × List SSEEvent) :
    α × List SSEEvent :=
  (r.1, evs ++ r.2)

/-- Modelled from the spec: folding the message assembler over a sequence
of lines, concatenating the emitted events in order. -/
def runLines : MsgState → List (List Nat) → MsgState × List SSEEvent
  | st, [] => (st, [])
  | st, l :: ls => withEvents (stepLine st l).2 (runLines (stepLine st l).1 ls)

/-- Modelled from the spec: joint state of the two-stage pipeline: line
splitter feeding the message assembler. -/
structure PState where
  lineSt : LineState
  msgSt : MsgState
  deriving DecidableEq

/-- Initial pipeline state. -/
def initPState : PState := ⟨initLineState, initMsgState⟩

/-- Modelled from the spec: one chunk through the whole pipeline: split
the chunk into lines, then fold the assembler over those lines. -/
def runChunk (p : PState) (c : List Nat) : PState × List SSEEvent :=
  (⟨(processChunk p.lineSt c).2, (runLines p.msgSt (processChunk p.lineSt c).1).1⟩,
   (runLines p.msgSt (processChunk p.lineSt c).1).2)

/-- Modelled from the spec: a whole chunk sequence through the pipeline. -/
def runChunks : PState → List (List Nat) → PState × List SSEEvent
  | p, [] => (p, [])
  | p, c :: cs => withEvents (runChunk p c).2 (runChunks (runChunk p c).1 cs)

/-- The lines produced by feeding a chunk sequence to the line splitter
from the initial state.  At end-of-stream the remaining buffer is
discarded (never emitted as a line). -/
def linesOfChunks (cs : List (List Nat)) : List (List Nat) :=
  (processChunks initLineState cs).1

/-- The callback invocations produced by feeding a chunk sequence through
the whole pipeline from the initial state.  Nothing further is emitted at
end-of-stream: an unterminated trailing line and an unterminated message
in progress are dropped. -/
def eventsOfChunks (cs : List (List Nat)) : List SSEEvent :=
  (runChunks initPState cs).2

/-- Tests that a byte sequence contains no line terminator (no LF, no CR). -/
def noTerm (c : List Nat) : Bool := c.all fun b => b ≠ 10 && b ≠ 13

/-- Joins data values with the newline byte, in order. -/
def joinNL : List (List Nat) → List Nat
  | [] => []
  | [v] => v
  | v :: vs => v ++ 10 :: joinNL vs

/-- Tests whether a line opens a message: a non-blank, non-comment line
whose field name is data, event or id (spec 4.2 with the emission
expectations of spec 8: retry lines, comments and unknown fields do not
by themselves open a message). -/
def opensMessage : List Nat → Bool
  | [] => false
  | b :: rest =>
    if b = 58 then false
    else if (fieldOf (b :: rest)).1 = strBytes "data" then true
    else if (fieldOf (b :: rest)).1 = strBytes "event" then true
    else if (fieldOf (b :: rest)).1 = strBytes "id" then true
    else false

/-- The content type required of an event stream (fetch.ts line 3). -/
def EventStreamContentType : String := "text/event-stream"

/-- The reconnect header key carrying the last event id (fetch.ts line 6). -/
def LastEventId : String := "last-event-id"

/-- The id callback installed by fetchEventSource (fetch.ts lines 91-97):
a non-empty id is written into the headers under the last-event-id key, an
empty id deletes that key; headers are modelled as a finite map from key
to optional value. -/
def onIdUpdate (headers : String → Option String) (i : String) :
    String → Option String :=
  if i = "" then fun k => if k = LastEventId then none else headers k
  else fun k => if k = LastEventId then some i else headers k

/-- The booleans of the fetchEventSource closure that the abort paths
read and write (fetch.ts lines 38-71): completion and abort flags, whether
the visibilitychange listener is attached, whether a retry timer is
pending, whether the current request controller has been aborted, and
whether the returned promise has been resolved. -/
structure FESState where
  isCompleted : Bool
  isAborting : Bool
  visListenerAttached : Bool
  retryTimerPending : Bool
  requestAborted : Bool
  promiseResolved : Bool
  deriving DecidableEq

/-- dispose (fetch.ts lines 59-65): removes the visibilitychange
listener, clears the retry timer, and aborts the current request only
when neither completed nor aborting. -/
def dispose (s : FESState) : FESState :=
  let s1 := { s with visListenerAttached := false, retryTimerPending := false }
  if s1.isCompleted = false ∧ s1.isAborting = false then
    { s1 with requestAborted := true }
  else s1

/-- The abort listener on the caller's signal (fetch.ts lines 67-71):
sets isAborting, then calls dispose, then resolves the promise. -/
def onAbortSignal (s : FESState) : FESState :=
  { dispose { s with isAborting := true } with promiseResolved := true }

/-- The startsWith test of JS strings: the second string is a prefix of
the first, compared character by character. -/
def strStartsWith (s p : String) : Bool := p.data.isPrefixOf s.data

/-- defaultOnOpen (fetch.ts lines 132-139) reduced to its observable
effect: whether it throws, as a function of the response's content-type
header (absent modelled as `none`).  It throws exactly when the header is
absent or does not start with the event-stream content type. -/
def defaultOnOpenThrows : Option String → Bool
  | none => true
  | some ct => !(strStartsWith ct EventStreamContentType)

/-- The onopen selection (fetch.ts line 74): the caller-supplied handler
when present, otherwise the default content-type check.  Handlers are
modelled by their throw-predicate on the content-type header. -/
def resolveOnOpen (inputOnOpen : Option (Option String → Bool)) :
    Option String → Bool :=
  inputOnOpen.getD defaultOnOpenThrows

/-! ## Lemmas about the line splitter -/

theorem strBytes_dataF : strBytes "data" = [100, 97, 116, 97] := by decide

theorem strBytes_eventF : strBytes "event" = [101, 118, 101, 110, 116] := by decide

theorem strBytes_idF : strBytes "id" = [105, 100] := by decide

theorem strBytes_retryF : strBytes "retry" = [114, 101, 116, 114, 121] := by decide

theorem scanBytes_append (xs : List Nat) : ∀ (cur ys : List Nat) (d : Bool),
    scanBytes cur (xs ++ ys) d =
      ((scanBytes cur xs d).1 ++
         (scanBytes (scanBytes cur xs d).2.1 ys (scanBytes cur xs d).2.2).1,
       (scanBytes (scanBytes cur xs d).2.1 ys (scanBytes cur xs d).2.2).2) := by
  induction xs with
  | nil =>
    intro cur ys d
    simp [scanBytes]
  | cons b xs ih =>
    intro cur ys d
    by_cases h1 : d = true ∧ b = 10
    · simp [scanBytes, h1, ih]
    · by_cases h2 : b = 10
      · have hd : d = false := by
          cases d
          · rfl
          · exact absurd ⟨rfl, h2⟩ h1
        subst hd
        simp [scanBytes, h2, ih, consLine]
      · by_cases h3 : b = 13
        · simp [scanBytes, h1, h2, h3, ih, consLine]
        · simp [scanBytes, h1, h2, h3, ih]

theorem processChunk_append (s : LineState) (xs ys : List Nat) :
    processChunk s (xs ++ ys) =
      ((processChunk s xs).1 ++ (processChunk (processChunk s xs).2 ys).1,
       (processChunk (processChunk s xs).2 ys).2) := by
  simp [processChunk, scanBytes_append]

theorem processChunks_join (cs : List (List Nat)) : ∀ s : LineState,
    processChunks s cs = processChunk s cs.flatten := by
  induction cs with
  | nil =>
    intro s
    rfl
  | cons c cs ih =>
    intro s
    have hj : (c :: cs).flatten = c ++ cs.flatten := rfl
    rw [hj, processChunk_append]
    simp [processChunks, ih]

theorem runLines_append (ls1 : List (List Nat)) : ∀ (st : MsgState) (ls2 : List (List Nat)),
    runLines st (ls1 ++ ls2) =
      ((runLines (runLines st ls1).1 ls2).1,
       (runLines st ls1).2 ++ (runLines (runLines st ls1).1 ls2).2) := by
  induction ls1 with
  | nil =>
    intro st ls2
    simp [runLines]
  | cons l ls ih =>
    intro st ls2
    simp [runLines, withEvents, ih]

theorem runChunks_eq (cs : List (List Nat)) : ∀ p : PState,
    runChunks p cs =
      (⟨(processChunks p.lineSt cs).2, (runLines p.msgSt (processChunks p.lineSt cs).1).1⟩,
       (runLines p.msgSt (processChunks p.lineSt cs).1).2) := by
  induction cs with
  | nil =>
    intro p
    rfl
  | cons c cs ih =>
    intro p
    simp [runChunks, processChunks, runChunk, withEvents, ih, runLines_append]

theorem flatten_map_singleton (s : List Nat) : (s.map fun b => [b]).flatten = s := by
  induction s with
  | nil => rfl
  | cons a s ih => simp [ih]

/-- C1: chunk-boundary invariance — feeding a byte stream through the
line splitter and message assembler in arbitrary chunks yields exactly
the same lines and the same events (hence the same SSEMessages) as
feeding it as one single chunk; in particular byte-by-byte single-byte
delivery equals one big chunk. -/
theorem c1_chunk_invariance :
    (∀ cs : List (List Nat),
        linesOfChunks cs = linesOfChunks [cs.flatten] ∧
          eventsOfChunks cs = eventsOfChunks [cs.flatten]) ∧
      ∀ s : List Nat, eventsOfChunks (s.map fun b => [b]) = eventsOfChunks [s] := by
  have key : ∀ cs : List (List Nat),
      linesOfChunks cs = linesOfChunks [cs.flatten] ∧
        eventsOfChunks cs = eventsOfChunks [cs.flatten] := by
    intro cs
    have hlines : ∀ ds : List (List Nat),
        linesOfChunks ds = (processChunk initLineState ds.flatten).1 := by
      intro ds
      simp [linesOfChunks, processChunks_join]
    have h1 : linesOfChunks cs = linesOfChunks [cs.flatten] := by
      rw [hlines cs, hlines [cs.flatten]]
      simp
    refine ⟨h1, ?_⟩
    simp [eventsOfChunks, runChunks_eq, initPState]
    rw [show (processChunks initLineState cs).1 = linesOfChunks cs from rfl]
    rw [show (processChunks initLineState [cs.flatten]).1 = linesOfChunks [cs.flatten] from rfl]
    rw [h1]
  refine ⟨key, ?_⟩
  intro s
  have h := (key (s.map fun b => [b])).2
  rwa [flatten_map_singleton] at h

theorem scan_noTerm (c : List Nat) (h : noTerm c = true) : ∀ cur : List Nat,
    scanBytes cur c false = ([], cur ++ c, false) := by
  induction c with
  | nil =>
    intro cur
    simp [scanBytes]
  | cons b c ih =>
    intro cur
    have hb : (b ≠ 10 ∧ b ≠ 13) ∧ noTerm c = true := by
      simpa [noTerm, List.all_cons, Bool.and_eq_true, decide_eq_true_eq] using h
    simp only [scanBytes]
    rw [if_neg (by simp [hb.1.1]), if_neg hb.1.1, if_neg hb.1.2, ih hb.2]
    simp

theorem scan_noTerm_lines_nil (c : List Nat) (h : noTerm c = true) :
    ∀ (cur : List Nat) (d : Bool), (scanBytes cur c d).1 = [] := by
  induction c with
  | nil =>
    intro cur d
    simp [scanBytes]
  | cons b c ih =>
    intro cur d
    have hb : (b ≠ 10 ∧ b ≠ 13) ∧ noTerm c = true := by
      simpa [noTerm, List.all_cons, Bool.and_eq_true, decide_eq_true_eq] using h
    simp only [scanBytes]
    rw [if_neg (by simp [hb.1.1]), if_neg hb.1.1, if_neg hb.1.2]
    exact ih hb.2 _ _

/-- C2: a CRLF terminator split across two chunks is treated as one
terminator: the line ending at the CR is emitted exactly once and the
leading LF of the next chunk is swallowed, never emitted as an extra
empty line; concretely the two chunks "data: x\r" and "\ndata: y\n\n"
produce the lines "data: x", "data: y", "" and hence a single message. -/
theorem c2_crlf_across_chunks :
    (∀ c1 c2 : List Nat, noTerm c1 = true →
        linesOfChunks [c1 ++ [13], 10 :: c2] = c1 :: linesOfChunks [c2]) ∧
      eventsOfChunks [strBytes "data: x\r", strBytes "\ndata: y\n\n"] =
          [SSEEvent.onMessage ⟨none, none, [120, 10, 121], none⟩] ∧
        linesOfChunks [strBytes "data: x\r", strBytes "\ndata: y\n\n"] =
          [strBytes "data: x", strBytes "data: y", []] := by
  refine ⟨?_, by decide, by decide⟩
  intro c1 c2 h
  have h1 : scanBytes [] (c1 ++ [13]) false = ([c1], [], true) := by
    rw [scanBytes_append, scan_noTerm c1 h]
    simp [scanBytes, consLine]
  simp [linesOfChunks, processChunks, processChunk, initLineState, h1, scanBytes]

theorem scan_blanks (n : Nat) :
    scanBytes [] (List.replicate n 10) false = (List.replicate n [], [], false) := by
  induction n with
  | zero => rfl
  | succ n ih => simp [List.replicate_succ, scanBytes, consLine, ih]

theorem stepLine_blank (st : MsgState) :
    stepLine st [] = (initMsgState, if st.hasFields then [SSEEvent.onMessage st.msg] else []) :=
  rfl

theorem runLines_blanks (n : Nat) :
    runLines initMsgState (List.replicate n []) = (initMsgState, []) := by
  induction n with
  | zero => rfl
  | succ n ih =>
    have hstep : stepLine initMsgState [] = (initMsgState, []) := rfl
    simp [List.replicate_succ, runLines, withEvents, hstep, ih]

theorem stepLine_onMessage_iff (st : MsgState) (l : List Nat) :
    (∃ m, SSEEvent.onMessage m ∈ (stepLine st l).2) ↔ l = [] ∧ st.hasFields = true := by
  cases l with
  | nil =>
    cases hf : st.hasFields <;> simp [stepLine, hf]
  | cons b rest =>
    simp only [stepLine]
    split_ifs <;> simp

theorem stepLine_hasFields (st : MsgState) (l : List Nat) :
    (stepLine st l).1.hasFields =
      if l = [] then false else if opensMessage l = true then true else st.hasFields := by
  cases l with
  | nil => simp [stepLine, initMsgState]
  | cons b rest =>
    simp only [stepLine, opensMessage]
    split_ifs <;> simp_all

/-- C3 (amended): `onMessage` fires on a blank line exactly when a
message-opening field line (data, event or id — even a NUL-rejected id)
has been seen since the previous flush; retry lines, comment lines and
unknown fields do not open a message; a stream of only blank lines
produces no `onMessage` at all. -/
theorem c3_message_emission :
    (∀ (st : MsgState) (l : List Nat),
        (∃ m, SSEEvent.onMessage m ∈ (stepLine st l).2) ↔ l = [] ∧ st.hasFields = true) ∧
      (∀ (st : MsgState) (l : List Nat),
          (stepLine st l).1.hasFields =
            if l = [] then false else if opensMessage l = true then true else st.hasFields) ∧
      ∀ n : Nat, eventsOfChunks [List.replicate n 10] = [] := by
  refine ⟨stepLine_onMessage_iff, stepLine_hasFields, ?_⟩
  intro n
  simp [eventsOfChunks, runChunks_eq, initPState, processChunks, processChunk,
    initLineState, scan_blanks, runLines_blanks]

/-- C3 counterexample: "retry: 3000\n\n" contains a field line followed
by a blank line, yet the pipeline produces only the `onRetry` callback
and no `onMessage`, refuting emission-on-any-field-line. -/
theorem c3_counterexample :
    eventsOfChunks [strBytes "retry: 3000\n\n"] = [SSEEvent.onRetry 3000] := by
  decide

/-- C7: end-of-stream drops partial input: trailing bytes with no line
terminator never change the emitted events, and a sequence of lines with
no blank line never produces an `onMessage` — so an unterminated
in-progress message is never delivered. -/
theorem c7_eos_drops_unterminated :
    (∀ xs t : List Nat, noTerm t = true →
        eventsOfChunks [xs ++ t] = eventsOfChunks [xs]) ∧
      ∀ (st : MsgState) (ls : List (List Nat)), (∀ l ∈ ls, l ≠ []) →
        ∀ m, SSEEvent.onMessage m ∉ (runLines st ls).2 := by
  constructor
  · intro xs t h
    have hlines : (processChunk initLineState (xs ++ t)).1 = (processChunk initLineState xs).1 := by
      rw [processChunk_append]
      simp [processChunk, scan_noTerm_lines_nil t h]
    simp [eventsOfChunks, runChunks_eq, initPState, processChunks, hlines]
  · intro st ls
    induction ls generalizing st with
    | nil => simp [runLines]
    | cons l ls ih =>
      intro h m
      simp only [runLines, withEvents, List.mem_append]
      rintro (hm | hm)
      · have : ∃ m, SSEEvent.onMessage m ∈ (stepLine st l).2 := ⟨m, hm⟩
        rw [stepLine_onMessage_iff] at this
        exact h l (List.mem_cons_self l ls) this.1
      · exact ih (stepLine st l).1 (fun x hx => h x (List.mem_cons_of_mem l hx)) m hm

theorem c7_witness :
    eventsOfChunks [strBytes "data: a\n\n" ++ strBytes "data: b"] =
        eventsOfChunks [strBytes "data: a\n\n"] ∧
      SSEEvent.onMessage newMessage ∉
        (runLines initMsgState [strBytes "data: a", strBytes "data: b"]).2 :=
  ⟨c7_eos_drops_unterminated.1 (strBytes "data: a\n\n") (strBytes "data: b") (by decide),
   c7_eos_drops_unterminated.2 initMsgState [strBytes "data: a", strBytes "data: b"]
     (by decide) newMessage⟩

theorem stepLine_dataLine (st : MsgState) (v : List Nat) :
    stepLine st (strBytes "data: " ++ v) =
      ({ st with
          msg := { st.msg with
            data := if st.msg.data = [] then v else st.msg.data ++ 10 :: v },
          hasFields := true }, []) := by
  have hline : strBytes "data: " ++ v = 100 :: 97 :: 116 :: 97 :: 58 :: 32 :: v := rfl
  rw [hline]
  simp [stepLine, fieldOf, splitColon, stripOneSpace,
    strBytes_dataF, strBytes_eventF, strBytes_idF, strBytes_retryF]

theorem stepLine_idLine (st : MsgState) (v : List Nat) :
    stepLine st (strBytes "id: " ++ v) =
      if v.contains 0 then ({ st with hasFields := true }, [])
      else ({ st with msg := { st.msg with id := some v }, hasFields := true },
            [SSEEvent.onId v]) := by
  have hline : strBytes "id: " ++ v = 105 :: 100 :: 58 :: 32 :: v := rfl
  rw [hline]
  simp [stepLine, fieldOf, splitColon, stripOneSpace,
    strBytes_dataF, strBytes_eventF, strBytes_idF, strBytes_retryF]

theorem stepLine_retryLine (st : MsgState) (v : List Nat) :
    stepLine st (strBytes "retry: " ++ v) =
      if v.isEmpty then (st, [])
      else if v.all isDigitByte then
        ({ st with msg := { st.msg with retry := some (digitsToNat v) } },
         [SSEEvent.onRetry (digitsToNat v)])
      else (st, []) := by
  have hline : strBytes "retry: " ++ v = 114 :: 101 :: 116 :: 114 :: 121 :: 58 :: 32 :: v := rfl
  rw [hline]
  simp [stepLine, fieldOf, splitColon, stripOneSpace,
    strBytes_dataF, strBytes_eventF, strBytes_idF, strBytes_retryF]

theorem joinNL_cons (v : List Nat) (vs : List (List Nat)) :
    joinNL (v :: vs) = v ++ (vs.map fun x => 10 :: x).flatten := by
  induction vs generalizing v with
  | nil => simp [joinNL]
  | cons w ws ih => simp [joinNL, ih w]

theorem runLines_dataLines (vs : List (List Nat)) : ∀ st : MsgState,
    st.hasFields = true → st.msg.data ≠ [] →
    runLines st (vs.map fun v => strBytes "data: " ++ v) =
      ({ st with
          msg := { st.msg with data := st.msg.data ++ (vs.map fun v => 10 :: v).flatten } },
       []) := by
  induction vs with
  | nil =>
    intro st h1 h2
    simp [runLines]
  | cons v vs ih =>
    intro st h1 h2
    simp only [List.map_cons, runLines, stepLine_dataLine, withEvents]
    rw [if_neg h2]
    rw [ih _ rfl (by simp)]
    simp [h1, List.append_assoc]

/-- C4 (amended): the data values of a message are accumulated in arrival
order, each appended with a newline separator only when the accumulated
data is nonempty; whenever the first value is nonempty this is exactly
the values newline-joined, as in "data: hello\ndata: world\n\n". -/
theorem c4_data_accumulation :
    (∀ (v : List Nat) (vs : List (List Nat)), v ≠ [] →
        runLines initMsgState (((v :: vs).map fun x => strBytes "data: " ++ x) ++ [[]]) =
          (initMsgState, [SSEEvent.onMessage ⟨none, none, joinNL (v :: vs), none⟩])) ∧
      eventsOfChunks [strBytes "data: hello\ndata: world\n\n"] =
        [SSEEvent.onMessage ⟨none, none, strBytes "hello\nworld", none⟩] := by
  refine ⟨?_, by decide⟩
  intro v vs hv
  have hstep1 : stepLine initMsgState (strBytes "data: " ++ v) =
      (⟨⟨none, none, v, none⟩, true⟩, []) := by
    rw [stepLine_dataLine]
    rfl
  have hsplit : ((v :: vs).map fun x => strBytes "data: " ++ x) ++ [[]] =
      (strBytes "data: " ++ v) :: ((vs.map fun x => strBytes "data: " ++ x) ++ [[]]) := rfl
  rw [hsplit]
  simp only [runLines, hstep1, withEvents]
  rw [runLines_append, runLines_dataLines vs ⟨⟨none, none, v, none⟩, true⟩ rfl hv]
  simp [runLines, stepLine_blank, withEvents, joinNL_cons]

theorem c4_witness :
    runLines initMsgState
        ((([strBytes "hello", strBytes "world"]).map fun x => strBytes "data: " ++ x) ++ [[]]) =
      (initMsgState,
       [SSEEvent.onMessage ⟨none, none, joinNL [strBytes "hello", strBytes "world"], none⟩]) :=
  c4_data_accumulation.1 (strBytes "hello") [strBytes "world"] (by decide)

/-- C4 counterexample: in "data:\ndata: x\n\n" the data values are "" and
"x"; the emitted data is "x", not the newline-join "\nx" of the values —
an empty accumulated data receives no separator. -/
theorem c4_counterexample :
    eventsOfChunks [strBytes "data:\ndata: x\n\n"] =
        [SSEEvent.onMessage ⟨none, none, [120], none⟩] ∧
      joinNL [[], [120]] = [10, 120] := by
  constructor
  · decide
  · decide

/-- C5: an id field line whose value contains NUL performs no id
assignment and no `onId` callback, while still counting as a seen field
line; the concrete stream "id: a\x00b\n\n" produces no `onId` and one
message carrying no id. -/
theorem c5_nul_id :
    (∀ (st : MsgState) (v : List Nat), v.contains 0 = true →
        stepLine st (strBytes "id: " ++ v) = ({ st with hasFields := true }, [])) ∧
      eventsOfChunks [[105, 100, 58, 32, 97, 0, 98, 10, 10]] =
        [SSEEvent.onMessage ⟨none, none, [], none⟩] := by
  refine ⟨?_, by decide⟩
  intro st v hv
  rw [stepLine_idLine, if_pos hv]

theorem c5_witness :
    stepLine initMsgState (strBytes "id: " ++ [0]) =
      ({ initMsgState with hasFields := true }, []) :=
  c5_nul_id.1 initMsgState [0] (by decide)

/-- C6 (amended): `onRetry` fires with the base-10 value exactly when the
retry field value is nonempty and every byte is an ASCII decimal digit,
and it fires immediately on that single line (no blank line involved),
also recording the value in the message record; otherwise the line is
silently ignored. -/
theorem c6_retry_validation (st : MsgState) (v : List Nat) :
    stepLine st (strBytes "retry: " ++ v) =
      if v.isEmpty then (st, [])
      else if v.all isDigitByte then
        ({ st with msg := { st.msg with retry := some (digitsToNat v) } },
         [SSEEvent.onRetry (digitsToNat v)])
      else (st, []) :=
  stepLine_retryLine st v

/-- C6 counterexample: the empty retry value vacuously consists only of
digit bytes, yet "retry:\n\n" fires no callback at all — refuting the
claimed if-and-only-if at the empty value. -/
theorem c6_counterexample :
    List.all ([] : List Nat) isDigitByte = true ∧
      eventsOfChunks [strBytes "retry:\n\n"] = [] := by
  constructor
  · decide
  · decide

/-- C8: the id callback of fetchEventSource writes a non-empty id into
the headers under the last-event-id key, removes that key for an empty
id, and modifies no other headers entry. -/
theorem c8_last_event_id (h : String → Option String) (i : String) :
    (i ≠ "" → onIdUpdate h i LastEventId = some i) ∧
      (i = "" → onIdUpdate h i LastEventId = none) ∧
      ∀ k : String, k ≠ LastEventId → onIdUpdate h i k = h k := by
  refine ⟨?_, ?_, ?_⟩
  · intro hne
    simp [onIdUpdate, hne]
  · intro he
    simp [onIdUpdate, he]
  · intro k hk
    by_cases he : i = "" <;> simp [onIdUpdate, he, hk]

theorem c8_witness :
    (onIdUpdate (fun _ => none) "5" LastEventId = some "5") ∧
      (onIdUpdate (fun _ => none) "" LastEventId = none) ∧
      onIdUpdate (fun _ => none) "5" "accept" = (fun _ => (none : Option String)) "accept" :=
  ⟨(c8_last_event_id (fun _ => none) "5").1 (by decide),
   (c8_last_event_id (fun _ => none) "").2.1 rfl,
   (c8_last_event_id (fun _ => none) "5").2.2 "accept" (by decide)⟩

/-- C9: evaluating the abort-signal listener at its failing input — a
request in flight (not completed, not yet aborting, listener attached,
timer pending, request not aborted): the listener removes the listener,
clears the timer and resolves the promise, but because isAborting is set
before dispose runs, dispose's guard skips curRequestController.abort()
and requestAborted stays false — the in-flight request keeps streaming,
contradicting the claimed cancellation. -/
theorem c9_abort_skips_request_abort :
    onAbortSignal ⟨false, false, true, true, false, false⟩ =
      ⟨false, true, false, false, false, true⟩ := by
  decide

/-- C10: the default onopen handler throws exactly when the content-type
header is absent or does not start with "text/event-stream" (so
parameter suffixes are accepted), and a caller-supplied onopen replaces
it, so no library content-type check runs. -/
theorem c10_default_onopen :
    defaultOnOpenThrows none = true ∧
      (∀ s : String, strStartsWith s EventStreamContentType = true →
          defaultOnOpenThrows (some s) = false) ∧
      (∀ s : String, strStartsWith s EventStreamContentType = false →
          defaultOnOpenThrows (some s) = true) ∧
      ∀ f : Option String → Bool, resolveOnOpen (some f) = f := by
  refine ⟨rfl, ?_, ?_, fun f => rfl⟩
  · intro s hs
    simp [defaultOnOpenThrows, hs]
  · intro s hs
    simp [defaultOnOpenThrows, hs]

theorem c10_witness :
    defaultOnOpenThrows (some "text/event-stream; charset=utf-8") = false ∧
      defaultOnOpenThrows (some "text/html") = true ∧
      resolveOnOpen (some fun _ => false) = fun _ => false :=
  ⟨c10_default_onopen.2.1 "text/event-stream; charset=utf-8" (by decide),
   c10_default_onopen.2.2.1 "text/html" (by decide),
   c10_default_onopen.2.2.2 fun _ => false⟩

theorem c2_witness :
    linesOfChunks [strBytes "data: x" ++ [13], 10 :: strBytes "data: y\n\n"] =
      strBytes "data: x" :: linesOfChunks [strBytes "data: y\n\n"] :=
  c2_crlf_across_chunks.1 (strBytes "data: x") (strBytes "data: y\n\n") (by decide)
